import Mathlib

/-!
Verification of the numeric pipeline in `scripts/harmonic_qubit_resonance.py`
(Driftprint Vault XVII-B): harmonic signal synthesis, coherence metrics and the
bounded-bin direct Fourier transform.

Modelling conventions, shared by every definition below:
* Python floats are modelled as real numbers (`ℝ`).
* Python `round(x, k)` (round half to even) is modelled exactly on reals by
  `pyRoundTo`; Python `int(x)` (truncation toward zero) by `pyInt`.
* Python applies `round` and `int` to IEEE-754 doubles, while this embedding
  applies them to the exact real value.  At inputs where the double falls on
  the other side of a decision boundary — e.g. `72.1 * 100.0` is the double
  `7209.999999999999`, so the program truncates it to `7209`, one below the
  exact `⌊72.1 · 100⌋ = 7210` — the program diverges from this model, and no
  claim below is settled at such an input.
* Code paths that raise `ZeroDivisionError` are modelled by returning `none`
  from an `Option`-valued function; the happy path returns `some`.
* Python `range(1, harmonics + 1)` is `Finset.Icc 1 harmonics`; the loop
  accumulators become `Finset.sum`. `harmonics` is modelled as `ℕ`: every
  Python int `harmonics ≤ 0` makes `range(1, harmonics + 1)` empty exactly as
  `harmonics = 0` does here.
-/

noncomputable section

open Real

/-- Python `round(x)` on a real value: round half to even (banker's rounding). -/
def pyRound (x : ℝ) : ℤ :=
  if Int.fract x = 1 / 2 then (if Even ⌊x⌋ then ⌊x⌋ else ⌊x⌋ + 1) else round x

/-- Python `round(x, k)` for a nonnegative number of decimal digits `k`. -/
def pyRoundTo (x : ℝ) (k : ℕ) : ℝ :=
  (pyRound (x * 10 ^ k) : ℝ) / 10 ^ k

/-- Python `int(x)` on a float: truncation toward zero. -/
def pyInt (x : ℝ) : ℤ :=
  if 0 ≤ x then ⌊x⌋ else -⌊-x⌋

/-- Python `max` over a list of floats.  Python raises on the empty list; the
`0` returned here for `[]` is never reached by the code below, which guards
every `max` call with a nonemptiness test. -/
def pyMax : List ℝ → ℝ
  | [] => 0
  | [a] => a
  | a :: b :: l => max a (pyMax (b :: l))

/-- Python slice `l[-w:]`: the last `w` elements for `w ≥ 1`, the whole list
for `w = 0` (because `l[-0:]` is `l[0:]`). -/
def pySliceLast (l : List ℝ) (w : ℕ) : List ℝ :=
  if w = 0 then l else l.drop (l.length - w)

/-- One `(time, amplitude)` record of `resonance_data`
(`scripts/harmonic_qubit_resonance.py`, lines 70-73). -/
structure DataPoint where
  time : ℝ
  amplitude : ℝ

/-- `compute_resonance_amplitude` (lines 19-34): the damped oscillator
primitive `exp(-damping * time) * sin(2π * frequency * time)`, with the
source's default `damping = 0.01`. -/
def compute_resonance_amplitude (frequency : ℝ) (time : ℝ) (damping : ℝ := 0.01) : ℝ :=
  let phase := 2 * π * frequency * time
  let decay := Real.exp (-damping * time)
  decay * Real.sin phase

/-- The weight normalizer `sum(1.0 / h for h in range(1, harmonics + 1))`
(line 69). -/
def weightSum (harmonics : ℕ) : ℝ :=
  ∑ h ∈ Finset.Icc 1 harmonics, 1 / (h : ℝ)

/-- The body of the sampling loop of `simulate_harmonic_qubit` (lines 61-73)
for sample index `i`: the `1/h`-weighted sum of `compute_resonance_amplitude`
over the harmonics (the `damping` argument is omitted in the source, so the
default applies), normalized by `weightSum`, with `time` rounded to 4 and
`amplitude` to 6 decimal places. -/
def simPoint (base_frequency : ℝ) (harmonics : ℕ) (sample_rate : ℝ) (i : ℕ) : DataPoint :=
  let t : ℝ := (i : ℝ) / sample_rate
  let total : ℝ :=
    ∑ h ∈ Finset.Icc 1 harmonics,
      (1 / (h : ℝ)) * compute_resonance_amplitude (base_frequency * h) t
  { time := pyRoundTo t 4, amplitude := pyRoundTo (total / weightSum harmonics) 6 }

/-- The dictionary returned by `simulate_harmonic_qubit` (lines 75-85),
restricted to the fields the claims are about (the `parameters` sub-dict is
flattened). -/
structure SimResult where
  base_frequency_hz : ℝ
  harmonics : ℕ
  duration_seconds : ℝ
  sample_rate_hz : ℝ
  data_points : ℕ
  resonance_data : List DataPoint

/-- `simulate_harmonic_qubit` (lines 37-85).  `num_samples` is
`int(duration * sample_rate)`, the sampling loop runs over
`range(num_samples)`.  When the harmonic range is empty (`harmonics = 0`) and
at least one sample is due, the first pass of the loop executes
`total_amplitude /= 0` and Python raises `ZeroDivisionError`: that path is
`none`.  No parameter validation is performed anywhere in the source. -/
def simulate_harmonic_qubit (base_frequency : ℝ := 5) (harmonics : ℕ := 5)
    (duration : ℝ := 72.1) (sample_rate : ℝ := 100) : Option SimResult :=
  let num_samples := (pyInt (duration * sample_rate)).toNat
  if 0 < num_samples ∧ harmonics = 0 then none
  else
    let data := (List.range num_samples).map (simPoint base_frequency harmonics sample_rate)
    some { base_frequency_hz := base_frequency, harmonics := harmonics,
           duration_seconds := duration, sample_rate_hz := sample_rate,
           data_points := data.length, resonance_data := data }

/-- The metrics dictionary returned by `compute_coherence_metrics`
(lines 101-127). -/
structure CoherenceMetrics where
  total_duration_s : ℝ
  initial_peak_amplitude : ℝ
  final_avg_amplitude : ℝ
  coherence_retention : ℝ
  sample_count : ℕ

/-- `compute_coherence_metrics` (lines 88-127).  The empty series returns the
all-zero record; otherwise the peak of `|a|` over the first
`min(100, n)` samples, the mean of `|a|` over the last `min(100, n)` samples,
their ratio when the peak is positive, and `times[-1]`, with the source's
rounding (6, 6, and 4 decimal places). -/
def compute_coherence_metrics (resonance_data : List DataPoint) : CoherenceMetrics :=
  let amplitudes := resonance_data.map DataPoint.amplitude
  let times := resonance_data.map DataPoint.time
  if amplitudes = [] then
    { total_duration_s := 0, initial_peak_amplitude := 0, final_avg_amplitude := 0,
      coherence_retention := 0, sample_count := 0 }
  else
    let initial_count := min 100 amplitudes.length
    let final_count := min 100 amplitudes.length
    let peak_amplitude := pyMax ((amplitudes.take initial_count).map (fun a => |a|))
    let final_amplitude :=
      ((pySliceLast amplitudes final_count).map (fun a => |a|)).sum / (final_count : ℝ)
    let coherence_ratio := if 0 < peak_amplitude then final_amplitude / peak_amplitude else 0
    { total_duration_s := (times.getLast?).getD 0,
      initial_peak_amplitude := pyRoundTo peak_amplitude 6,
      final_avg_amplitude := pyRoundTo final_amplitude 6,
      coherence_retention := pyRoundTo coherence_ratio 4,
      sample_count := resonance_data.length }

/-- One `(frequency_hz, magnitude)` record of `spectrum_data`
(lines 170-173). -/
structure SpectrumPoint where
  frequency_hz : ℝ
  magnitude : ℝ

/-- The dictionary returned by `generate_fft_spectrum` (lines 175-180). -/
structure SpectrumResult where
  frequency_resolution_hz : ℝ
  bins : ℕ
  spectrum_data : List SpectrumPoint

/-- The body of the bin loop of `generate_fft_spectrum` (lines 159-173) for
bin index `k`: direct DFT accumulation over all `n` samples, magnitude
`sqrt(real² + imag²) / n` rounded to 6, frequency `k * sample_rate / n`
rounded to 4 decimal places. -/
def spectrumBin (amplitudes : List ℝ) (sample_rate : ℝ) (k : ℕ) : SpectrumPoint :=
  let n := amplitudes.length
  let re :=
    ∑ i ∈ Finset.range n, amplitudes.getD i 0 * Real.cos (-2 * π * k * i / n)
  let im :=
    ∑ i ∈ Finset.range n, amplitudes.getD i 0 * Real.sin (-2 * π * k * i / n)
  { frequency_hz := pyRoundTo ((k : ℝ) * sample_rate / n) 4,
    magnitude := pyRoundTo (Real.sqrt (re ^ 2 + im ^ 2) / n) 6 }

/-- `generate_fft_spectrum` (lines 130-180).  `num_bins = min(max_bins, n // 2)`
with Python floor division; the bin loop over `range(num_bins)`.  The final
dictionary computes `sample_rate / n` unconditionally (line 177), so `n = 0`
raises `ZeroDivisionError`: that path is `none`. -/
def generate_fft_spectrum (resonance_data : List DataPoint) (sample_rate : ℝ := 100)
    (max_bins : ℕ := 50) : Option SpectrumResult :=
  let amplitudes := resonance_data.map DataPoint.amplitude
  let n := amplitudes.length
  let num_bins := min max_bins (n / 2)
  let spectrum := (List.range num_bins).map (spectrumBin amplitudes sample_rate)
  if n = 0 then none
  else some { frequency_resolution_hz := pyRoundTo (sample_rate / (n : ℝ)) 6,
              bins := num_bins, spectrum_data := spectrum }

/-- The sampling-loop body generalized over the damping coefficient:
`simPoint` is `simPointD` at the source's fixed default `0.01`.  Used to
state that the synthesis interface exposes no damping parameter. -/
def simPointD (damping : ℝ) (base_frequency : ℝ) (harmonics : ℕ) (sample_rate : ℝ)
    (i : ℕ) : DataPoint :=
  let t : ℝ := (i : ℝ) / sample_rate
  let total : ℝ :=
    ∑ h ∈ Finset.Icc 1 harmonics,
      (1 / (h : ℝ)) * compute_resonance_amplitude (base_frequency * h) t damping
  { time := pyRoundTo t 4, amplitude := pyRoundTo (total / weightSum harmonics) 6 }

/-- The synthesized series generalized over the damping coefficient. -/
def genSimData (damping base_frequency : ℝ) (harmonics : ℕ)
    (duration sample_rate : ℝ) : List DataPoint :=
  (List.range ((pyInt (duration * sample_rate)).toNat)).map
    (simPointD damping base_frequency harmonics sample_rate)

/-- The amplitude formula as the spec states it (section 4.1):
`raw(t) = Σ_{h=1..harmonics} (1/h) · exp(-damping·t) · sin(2π · f·h · t)`
divided by `Σ_{h=1..harmonics} 1/h`. -/
def specAmplitude (damping base_frequency : ℝ) (harmonics : ℕ) (t : ℝ) : ℝ :=
  (∑ h ∈ Finset.Icc 1 harmonics,
      (1 / (h : ℝ)) *
        (Real.exp (-damping * t) * Real.sin (2 * π * (base_frequency * h) * t))) /
    ∑ h ∈ Finset.Icc 1 harmonics, (1 / (h : ℝ))

/-- The unrounded initial-peak quantity of `compute_coherence_metrics`:
`max(|a|)` over the first `min(100, n)` amplitudes. -/
def peakRaw (data : List DataPoint) : ℝ :=
  pyMax (((data.map DataPoint.amplitude).take (min 100 data.length)).map (fun a => |a|))

/-- The unrounded final-average quantity of `compute_coherence_metrics`:
mean of `|a|` over the last `min(100, n)` amplitudes. -/
def finalAvgRaw (data : List DataPoint) : ℝ :=
  ((pySliceLast (data.map DataPoint.amplitude) (min 100 data.length)).map (fun a => |a|)).sum /
    ((min 100 data.length : ℕ) : ℝ)

/-- The unrounded retention ratio of `compute_coherence_metrics`, with its
degenerate-window guard. -/
def retentionRaw (data : List DataPoint) : ℝ :=
  if 0 < peakRaw data then finalAvgRaw data / peakRaw data else 0

/-! ### Basic facts about the Python primitives -/

lemma pyRound_le (y : ℝ) : (pyRound y : ℝ) ≤ y + 1 / 2 := by
  unfold pyRound
  split_ifs with h1 h2
  · have hy : (⌊y⌋ : ℝ) + 1 / 2 = y := by
      have := Int.floor_add_fract y
      rw [h1] at this; linarith
    linarith
  · have hy : (⌊y⌋ : ℝ) + 1 / 2 = y := by
      have := Int.floor_add_fract y
      rw [h1] at this; linarith
    push_cast
    linarith
  · rw [round_eq]
    exact Int.floor_le _

lemma le_pyRound (y : ℝ) : y - 1 / 2 ≤ (pyRound y : ℝ) := by
  unfold pyRound
  split_ifs with h1 h2
  · have hy : (⌊y⌋ : ℝ) + 1 / 2 = y := by
      have := Int.floor_add_fract y
      rw [h1] at this; linarith
    linarith
  · have hy : (⌊y⌋ : ℝ) + 1 / 2 = y := by
      have := Int.floor_add_fract y
      rw [h1] at this; linarith
    push_cast
    linarith
  · rw [round_eq]
    have := Int.lt_floor_add_one (y + 1 / 2)
    linarith

lemma pyRound_abs_le {y : ℝ} {B : ℤ} (h : |y| ≤ (B : ℝ)) : |pyRound y| ≤ B := by
  rw [abs_le] at h ⊢
  constructor
  · have h1 : ((-B - 1 : ℤ) : ℝ) < (pyRound y : ℝ) := by
      have := le_pyRound y
      push_cast
      linarith [h.1]
    have h2 : (-B - 1 : ℤ) < pyRound y := by exact_mod_cast h1
    omega
  · have h1 : (pyRound y : ℝ) < ((B + 1 : ℤ) : ℝ) := by
      have := pyRound_le y
      push_cast
      linarith [h.2]
    have h2 : pyRound y < (B + 1 : ℤ) := by exact_mod_cast h1
    omega

lemma abs_pyRoundTo_le_one {x : ℝ} (k : ℕ) (h : |x| ≤ 1) : |pyRoundTo x k| ≤ 1 := by
  have hp : (0 : ℝ) < 10 ^ k := by positivity
  have hy : |x * 10 ^ k| ≤ (((10 : ℤ) ^ k : ℤ) : ℝ) := by
    rw [abs_mul, abs_of_pos hp]
    push_cast
    nlinarith [abs_nonneg x]
  have hb := pyRound_abs_le hy
  rw [pyRoundTo, abs_div, abs_of_pos hp, div_le_one hp]
  calc |(pyRound (x * 10 ^ k) : ℝ)| = ((|pyRound (x * 10 ^ k)| : ℤ) : ℝ) := by
        rw [Int.cast_abs]
    _ ≤ (((10 : ℤ) ^ k : ℤ) : ℝ) := by exact_mod_cast hb
    _ = 10 ^ k := by push_cast; ring

lemma pyRound_eq_int {y : ℝ} {z : ℤ} (h3 : Int.fract y ≠ 1 / 2)
    (h1 : (z : ℝ) ≤ y + 1 / 2) (h2 : y + 1 / 2 < z + 1) : pyRound y = z := by
  rw [pyRound, if_neg h3, round_eq]
  exact Int.floor_eq_iff.mpr ⟨h1, h2⟩

lemma fract_ne_half {y : ℝ} {z : ℤ} (h1 : (z : ℝ) ≤ y) (h2 : y < z + 1)
    (h3 : y - z ≠ 1 / 2) : Int.fract y ≠ 1 / 2 := by
  have hf : ⌊y⌋ = z := Int.floor_eq_iff.mpr ⟨h1, h2⟩
  unfold Int.fract
  rw [hf]
  exact h3

lemma pyRound_intCast (z : ℤ) : pyRound (z : ℝ) = z := by
  rw [pyRound, if_neg, round_intCast]
  rw [Int.fract_intCast]
  norm_num

lemma pyRoundTo_zero (k : ℕ) : pyRoundTo 0 k = 0 := by
  rw [pyRoundTo, zero_mul]
  rw [show ((0 : ℝ) = ((0 : ℤ) : ℝ)) by norm_num, pyRound_intCast]
  norm_num

@[simp] lemma pyMax_singleton (a : ℝ) : pyMax [a] = a := rfl

lemma pyMax_cons (a b : ℝ) (l : List ℝ) : pyMax (a :: b :: l) = max a (pyMax (b :: l)) := rfl

lemma le_pyMax : ∀ (l : List ℝ) (a : ℝ), a ∈ l → a ≤ pyMax l
  | [b], a, h => by
    simp only [List.mem_singleton] at h
    simp [h]
  | b :: c :: l, a, h => by
    rw [pyMax_cons]
    rcases List.mem_cons.mp h with h | h
    · exact h ▸ le_max_left _ _
    · exact le_trans (le_pyMax (c :: l) a h) (le_max_right _ _)

lemma pyMax_mem : ∀ (l : List ℝ), l ≠ [] → pyMax l ∈ l
  | [a], _ => by simp
  | a :: b :: l, _ => by
    rw [pyMax_cons]
    rcases max_cases a (pyMax (b :: l)) with ⟨h, _⟩ | ⟨h, _⟩ <;> rw [h]
    · exact List.mem_cons_self _ _
    · exact List.mem_cons_of_mem _ (pyMax_mem (b :: l) (by simp))

lemma getD_map_range {α : Type} (n i : ℕ) (f : ℕ → α) (d : α) (h : i < n) :
    ((List.range n).map f).getD i d = f i := by
  simp [List.getD_eq_getElem?_getD, List.getElem?_range h]

/-! ### Shape of the synthesis result -/

lemma simulate_eq_some {f : ℝ} {H : ℕ} {dur sr : ℝ}
    (h : ¬(0 < (pyInt (dur * sr)).toNat ∧ H = 0)) :
    simulate_harmonic_qubit f H dur sr =
      some { base_frequency_hz := f, harmonics := H, duration_seconds := dur,
             sample_rate_hz := sr, data_points := (pyInt (dur * sr)).toNat,
             resonance_data :=
               (List.range ((pyInt (dur * sr)).toNat)).map (simPoint f H sr) } := by
  rw [simulate_harmonic_qubit, if_neg h]
  simp

lemma simulate_data {f : ℝ} {H : ℕ} {dur sr : ℝ} {r : SimResult}
    (hr : simulate_harmonic_qubit f H dur sr = some r) :
    r.resonance_data = (List.range ((pyInt (dur * sr)).toNat)).map (simPoint f H sr) := by
  by_cases h : 0 < (pyInt (dur * sr)).toNat ∧ H = 0
  · rw [simulate_harmonic_qubit, if_pos h] at hr
    exact absurd hr (by simp)
  · rw [simulate_eq_some h] at hr
    rw [← Option.some.inj hr]

lemma pyInt_intCast (z : ℤ) : pyInt (z : ℝ) = z := by
  unfold pyInt
  split_ifs with h
  · exact Int.floor_intCast z
  · rw [← Int.cast_neg, Int.floor_intCast]
    ring

lemma pyRoundTo_one (k : ℕ) : pyRoundTo 1 k = 1 := by
  rw [pyRoundTo, one_mul, show ((10 : ℝ) ^ k = (((10 : ℤ) ^ k : ℤ) : ℝ)) by push_cast; ring,
    pyRound_intCast]
  rw [div_self (by positivity)]

lemma pyRoundTo_lt_one6 {x : ℝ} (h : x ≤ 100 / 101) : pyRoundTo x 6 < 1 := by
  have h2 := pyRound_le (x * 10 ^ 6)
  have h3 := mul_le_mul_of_nonneg_right h (show (0 : ℝ) ≤ 10 ^ 6 by norm_num)
  rw [pyRoundTo, div_lt_one (by positivity)]
  norm_num at h2 h3 ⊢
  linarith

lemma exp_hundredth_le : Real.exp (-(0.01 : ℝ)) ≤ 100 / 101 := by
  have h1 : (101 / 100 : ℝ) ≤ Real.exp 0.01 := by
    have := Real.add_one_le_exp (0.01 : ℝ)
    norm_num at this ⊢
    linarith
  rw [Real.exp_neg, show (100 / 101 : ℝ) = (101 / 100)⁻¹ by norm_num]
  exact inv_anti₀ (by norm_num) h1

lemma simulate_unit : simulate_harmonic_qubit 1 1 1 1 =
    some { base_frequency_hz := 1, harmonics := 1, duration_seconds := 1, sample_rate_hz := 1,
           data_points := 1, resonance_data := [simPoint 1 1 1 0] } := by
  have h1 : pyInt ((1 : ℝ) * 1) = 1 := by
    rw [show ((1 : ℝ) * 1 = ((1 : ℤ) : ℝ)) by norm_num, pyInt_intCast]
  rw [simulate_eq_some (by rw [h1]; norm_num)]
  rw [h1]
  norm_num [show List.range 1 = [0] from rfl]

lemma simPointD_1 (d f : ℝ) :
    (simPointD d f 1 1 1).amplitude = pyRoundTo (Real.exp (-d) * Real.sin (2 * π * f)) 6 := by
  simp only [simPointD, weightSum, compute_resonance_amplitude, Finset.Icc_self,
    Finset.sum_singleton]
  norm_num

lemma sin_two_pi_quarter : Real.sin (2 * π * (1 / 4 : ℝ)) = 1 := by
  rw [show (2 * π * (1 / 4 : ℝ) = π / 2) by ring, Real.sin_pi_div_two]

/-! ### Claims -/

/-- Claim C1.  The spec says the spectrum transform handles every series of
length `n < 2` — the empty series included — by returning zero bins without
failing and without dividing by zero.  The code does so for `n = 1`, but for
`n = 0` the unconditional `round(sample_rate / n, 6)` on line 177 divides by
zero (`ZeroDivisionError`, modelled as `none` here): the claim describes the
evident intent and the code slips on the empty series. -/
theorem spectrum_empty_series_faults :
    generate_fft_spectrum [] 100 50 = none ∧
    (generate_fft_spectrum [{ time := 0, amplitude := 1 }] 100 50).elim False
      (fun s => s.bins = 0 ∧ s.spectrum_data = []) := by
  constructor
  · simp [generate_fft_spectrum]
  · simp [generate_fft_spectrum]

/-- Claim C2, counterexample.  Invalid parameters are not rejected before
synthesis: `harmonics = 0` (with a positive number of due samples) reaches the
normalization step and divides by zero instead of being rejected;
`duration = -1 ≤ 0` is not rejected at all — synthesis returns a result; and
with `duration = -1`, `sample_rate = -100` (both invalid) the truncated
product is `100`, so synthesis even returns a full 100-sample TimeSeries. -/
theorem simulate_invalid_params_not_rejected :
    simulate_harmonic_qubit 5 0 1 100 = none ∧
    simulate_harmonic_qubit 5 5 (-1) 100 ≠ none ∧
    (simulate_harmonic_qubit 5 5 (-1) (-100)).elim False
      (fun r => r.resonance_data.length = 100) := by
  have h100 : pyInt ((1 : ℝ) * 100) = 100 := by
    rw [show ((1 : ℝ) * 100 = ((100 : ℤ) : ℝ)) by norm_num, pyInt_intCast]
  have hneg : pyInt ((-1 : ℝ) * 100) = -100 := by
    rw [show ((-1 : ℝ) * 100 = ((-100 : ℤ) : ℝ)) by norm_num, pyInt_intCast]
  have hpos : pyInt ((-1 : ℝ) * -100) = 100 := by
    rw [show ((-1 : ℝ) * -100 = ((100 : ℤ) : ℝ)) by norm_num, pyInt_intCast]
  refine ⟨?_, ?_, ?_⟩
  · rw [simulate_harmonic_qubit, if_pos]
    refine ⟨?_, rfl⟩
    rw [h100]
    norm_num
  · rw [simulate_eq_some (by rw [hneg]; norm_num)]
    simp
  · rw [simulate_eq_some (by rw [hpos]; norm_num), Option.elim_some, hpos,
      show ((100 : ℤ).toNat = 100) from rfl]
    dsimp only
    rw [List.length_map, List.length_range]

/-- Claim C8, counterexample.  Increasing the damping does not strictly
decrease `|amplitude_at(frequency, t, damping)|` for every fixed `t > 0` and
frequency: at `frequency = 0`, `t = 1`, the sinusoidal factor is `sin 0 = 0`,
so the amplitude is `0` for damping `0` and `1` alike and no strict decrease
occurs. -/
theorem damping_strict_decrease_cex :
    ¬ |compute_resonance_amplitude 0 1 1| < |compute_resonance_amplitude 0 1 0| := by
  have h : ∀ d : ℝ, compute_resonance_amplitude 0 1 d = 0 := by
    intro d
    simp [compute_resonance_amplitude]
  rw [h, h]
  simp

/-- Claim C8, amended.  For fixed `t > 0` and fixed frequency, increasing the
damping strictly decreases `|amplitude_at|` whenever the sinusoidal factor
`sin(2π · frequency · t)` is nonzero; when that factor is zero the amplitude
is identically zero for every damping. -/
theorem damping_strict_decrease (f t d1 d2 : ℝ) (ht : 0 < t) (hd : d1 < d2) :
    (Real.sin (2 * π * f * t) ≠ 0 →
      |compute_resonance_amplitude f t d2| < |compute_resonance_amplitude f t d1|) ∧
    (Real.sin (2 * π * f * t) = 0 →
      compute_resonance_amplitude f t d1 = 0 ∧ compute_resonance_amplitude f t d2 = 0) := by
  constructor
  · intro hs
    simp only [compute_resonance_amplitude, abs_mul, Real.abs_exp]
    apply mul_lt_mul_of_pos_right
    · exact Real.exp_lt_exp.mpr (by nlinarith)
    · exact abs_pos.mpr hs
  · intro hs
    constructor <;> simp [compute_resonance_amplitude, hs]

/-- Witness for `damping_strict_decrease` at `frequency = 1/4`, `t = 1`,
damping increased from `0` to `1`, where `sin(π/2) = 1 ≠ 0`. -/
theorem damping_strict_decrease_witness :
    (0 : ℝ) < 1 ∧ (0 : ℝ) < 1 ∧ Real.sin (2 * π * (1 / 4) * 1) ≠ 0 ∧
      |compute_resonance_amplitude (1 / 4) 1 1| < |compute_resonance_amplitude (1 / 4) 1 0| := by
  have harg : 2 * π * (1 / 4 : ℝ) * 1 = π / 2 := by ring
  have hs : Real.sin (2 * π * (1 / 4 : ℝ) * 1) ≠ 0 := by
    rw [harg, Real.sin_pi_div_two]
    norm_num
  exact ⟨one_pos, one_pos, hs, (damping_strict_decrease (1 / 4) 1 0 1 one_pos one_pos).1 hs⟩

lemma simPoint_time (f : ℝ) (H : ℕ) (sr : ℝ) (i : ℕ) :
    (simPoint f H sr i).time = pyRoundTo ((i : ℝ) / sr) 4 := rfl

lemma coherence_eval (data : List DataPoint) (hne : data ≠ []) :
    compute_coherence_metrics data =
      { total_duration_s := ((data.map DataPoint.time).getLast?).getD 0,
        initial_peak_amplitude := pyRoundTo (peakRaw data) 6,
        final_avg_amplitude := pyRoundTo (finalAvgRaw data) 6,
        coherence_retention := pyRoundTo (retentionRaw data) 4,
        sample_count := data.length } := by
  have hne2 : data.map DataPoint.amplitude ≠ [] := by rwa [ne_eq, List.map_eq_nil_iff]
  simp only [compute_coherence_metrics, peakRaw, finalAvgRaw, retentionRaw, List.length_map]
  rw [if_neg hne2]

lemma coherence_window_ne (data : List DataPoint) (hne : data ≠ []) :
    ((data.map DataPoint.amplitude).take (min 100 data.length)).map (fun a => |a|) ≠ [] := by
  have hlen : 0 < data.length := List.length_pos.mpr hne
  rw [ne_eq, List.map_eq_nil_iff, List.take_eq_nil_iff]
  push_neg
  constructor
  · omega
  · rwa [ne_eq, List.map_eq_nil_iff]

lemma peakRaw_nonneg (data : List DataPoint) (hne : data ≠ []) : 0 ≤ peakRaw data := by
  have hmem := pyMax_mem _ (coherence_window_ne data hne)
  rw [← peakRaw] at hmem
  obtain ⟨a, _, hEq⟩ := List.mem_map.mp hmem
  rw [← hEq]
  exact abs_nonneg a

lemma coherence_sample_count (data : List DataPoint) (hne : data ≠ []) :
    (compute_coherence_metrics data).sample_count = data.length := by
  rw [coherence_eval data hne]

lemma coherence_total_duration (data : List DataPoint) (hne : data ≠ []) :
    (compute_coherence_metrics data).total_duration_s =
      ((data.map DataPoint.time).getLast?).getD 0 := by
  rw [coherence_eval data hne]

lemma pyRound_23_4 : pyRound ((2 : ℝ) / 3 * 10 ^ 4) = 6667 := by
  rw [show ((2 : ℝ) / 3 * 10 ^ 4 = 20000 / 3) by norm_num]
  exact pyRound_eq_int (@fract_ne_half _ 6666 (by norm_num) (by norm_num) (by norm_num))
    (by norm_num) (by norm_num)

lemma pyRound_23_6 : pyRound ((2 : ℝ) / 3 * 10 ^ 6) = 666667 := by
  rw [show ((2 : ℝ) / 3 * 10 ^ 6 = 2000000 / 3) by norm_num]
  exact pyRound_eq_int (@fract_ne_half _ 666666 (by norm_num) (by norm_num) (by norm_num))
    (by norm_num) (by norm_num)

lemma peakRaw_pair : peakRaw [{ time := 0, amplitude := 3 }, { time := 1, amplitude := 1 }] = 3 := by
  show pyMax [|(3 : ℝ)|, |(1 : ℝ)|] = 3
  rw [pyMax_cons, pyMax_singleton,
    abs_of_nonneg (by norm_num : (0 : ℝ) ≤ 3), abs_of_nonneg (by norm_num : (0 : ℝ) ≤ 1)]
  exact max_eq_left (by norm_num)

lemma finalAvgRaw_pair :
    finalAvgRaw [{ time := 0, amplitude := 3 }, { time := 1, amplitude := 1 }] = 2 := by
  show ([|(3 : ℝ)|, |(1 : ℝ)|].sum) / ((2 : ℕ) : ℝ) = 2
  rw [abs_of_nonneg (by norm_num : (0 : ℝ) ≤ 3), abs_of_nonneg (by norm_num : (0 : ℝ) ≤ 1)]
  norm_num

lemma retentionRaw_pair :
    retentionRaw [{ time := 0, amplitude := 3 }, { time := 1, amplitude := 1 }] = 2 / 3 := by
  rw [retentionRaw, peakRaw_pair, finalAvgRaw_pair, if_pos (by norm_num : (0 : ℝ) < 3)]

/-- Claim C4, counterexample.  The stored time values are `round(t, 4)`, not
`i / sample_rate`: with `sample_rate = 3` the second stored time is `0.3333`,
not `1/3` (so the stored times are also not spaced exactly `1/3` apart, the
first being `0`); and with `sample_rate = 1000000` the second sample time
`1/1000000` lies far below the 4-decimal grid and its stored value rounds to
`0`, equal to the first stored time — so the stored times are not always
strictly increasing either. -/
theorem synth_time_grid_cex :
    (((simulate_harmonic_qubit 1 1 1 3).elim [] SimResult.resonance_data).getD 1
        { time := 0, amplitude := 0 }).time ≠ (1 : ℝ) / 3 ∧
    (((simulate_harmonic_qubit 1 1 1 1000000).elim [] SimResult.resonance_data).getD 1
        { time := 0, amplitude := 0 }).time =
      (((simulate_harmonic_qubit 1 1 1 1000000).elim [] SimResult.resonance_data).getD 0
        { time := 0, amplitude := 0 }).time := by
  have h3 : pyInt ((1 : ℝ) * 3) = 3 := by
    rw [show ((1 : ℝ) * 3 = ((3 : ℤ) : ℝ)) by norm_num, pyInt_intCast]
  have h1M : pyInt ((1 : ℝ) * 1000000) = 1000000 := by
    rw [show ((1 : ℝ) * 1000000 = ((1000000 : ℤ) : ℝ)) by norm_num, pyInt_intCast]
  constructor
  · rw [simulate_eq_some (by rw [h3]; norm_num), Option.elim_some, h3,
      show ((3 : ℤ).toNat = 3) from rfl]
    rw [getD_map_range _ _ _ _ (by norm_num : (1 : ℕ) < 3), simPoint_time]
    rw [show (((1 : ℕ) : ℝ) / 3 = (1 : ℝ) / 3) by norm_num, pyRoundTo]
    rw [show ((1 : ℝ) / 3 * 10 ^ 4 = 10000 / 3) by norm_num]
    rw [show (pyRound ((10000 : ℝ) / 3) = 3333) from
      pyRound_eq_int (@fract_ne_half _ 3333 (by norm_num) (by norm_num) (by norm_num))
        (by norm_num) (by norm_num)]
    norm_num
  · rw [simulate_eq_some (by rw [h1M]; norm_num), Option.elim_some, h1M,
      show ((1000000 : ℤ).toNat = 1000000) from rfl]
    rw [getD_map_range _ _ _ _ (by norm_num : (1 : ℕ) < 1000000),
      getD_map_range _ _ _ _ (by norm_num : (0 : ℕ) < 1000000), simPoint_time, simPoint_time]
    rw [show ((((0 : ℕ) : ℝ) / 1000000) = (0 : ℝ)) by norm_num, pyRoundTo_zero, pyRoundTo]
    rw [show ((((1 : ℕ) : ℝ) / 1000000) * 10 ^ 4 = (1 : ℝ) / 100) by push_cast; norm_num]
    rw [show (pyRound ((1 : ℝ) / 100) = 0) from
      pyRound_eq_int (@fract_ne_half _ 0 (by norm_num) (by norm_num) (by norm_num))
        (by norm_num) (by norm_num)]
    norm_num

/-- Claim C4, amended.  For valid parameters, synthesis yields
`int(duration * sample_rate)` samples — the floor of the product, which the
program computes on IEEE doubles, where it can fall one below the exact
`floor(duration * sample_rate)` (as at `72.1 * 100`).  The stored time values
are `i / sample_rate` rounded to 4 decimal places; the underlying sample
times `i / sample_rate` themselves are strictly increasing and spaced exactly
`1 / sample_rate` apart, but the stored, rounded times need not be: they can
collapse for large `sample_rate` (e.g. `1000000`, where `round(1/1000000, 4)`
is `0`). -/
theorem synth_time_grid (f : ℝ) (H : ℕ) (dur sr : ℝ) (hdur : 0 < dur) (hsr : 0 < sr)
    (r : SimResult) (hr : simulate_harmonic_qubit f H dur sr = some r) :
    (r.resonance_data.length : ℤ) = ⌊dur * sr⌋ ∧
    (∀ i, i < r.resonance_data.length →
      (r.resonance_data.getD i { time := 0, amplitude := 0 }).time =
        pyRoundTo ((i : ℝ) / sr) 4) ∧
    (∀ i j : ℕ, i < j → (i : ℝ) / sr < (j : ℝ) / sr) ∧
    (∀ i : ℕ, ((i + 1 : ℕ) : ℝ) / sr - (i : ℝ) / sr = 1 / sr) := by
  have hds : (0 : ℝ) ≤ dur * sr := le_of_lt (mul_pos hdur hsr)
  have hpy : pyInt (dur * sr) = ⌊dur * sr⌋ := by rw [pyInt, if_pos hds]
  have hnn : 0 ≤ ⌊dur * sr⌋ := Int.floor_nonneg.mpr hds
  refine ⟨?_, ?_, ?_, ?_⟩
  · rw [simulate_data hr, List.length_map, List.length_range, hpy, Int.toNat_of_nonneg hnn]
  · intro i hi
    rw [simulate_data hr] at hi ⊢
    rw [List.length_map, List.length_range] at hi
    rw [getD_map_range _ _ _ _ hi, simPoint_time]
  · intro i j hij
    have hji : (i : ℝ) < (j : ℝ) := by exact_mod_cast hij
    have h := div_pos (sub_pos.mpr hji) hsr
    rw [sub_div] at h
    linarith
  · intro i
    have hne : sr ≠ 0 := ne_of_gt hsr
    push_cast
    field_simp

/-- Witness for `synth_time_grid` on the concrete run
`simulate_harmonic_qubit 1 1 1 1`. -/
theorem synth_time_grid_witness :
    (0 : ℝ) < 1 ∧
    ((([simPoint 1 1 1 0] : List DataPoint).length : ℤ) = ⌊(1 : ℝ) * 1⌋) ∧
    (([simPoint 1 1 1 0] : List DataPoint).getD 0 { time := 0, amplitude := 0 }).time =
      pyRoundTo (((0 : ℕ) : ℝ) / 1) 4 :=
  ⟨one_pos, (synth_time_grid 1 1 1 1 one_pos one_pos _ simulate_unit).1,
    (synth_time_grid 1 1 1 1 one_pos one_pos _ simulate_unit).2.1 0 (by simp)⟩

/-- Claim C3, counterexample.  The claim says the synthesized amplitude at
sample time `t = i / sample_rate` equals the weighted-harmonic formula with
the damping supplied in the parameters.  For the valid parameters
`base_frequency = 1/4`, `harmonics = 1`, `duration = 2`, `sample_rate = 1`,
`damping = 0`, the formula at sample `i = 1` gives `sin(π/2) = 1`, but the
code computes the sample with its fixed default damping `0.01` (and rounds),
yielding a value strictly below `1`. -/
theorem synth_amplitude_claim_cex :
    (((simulate_harmonic_qubit (1 / 4) 1 2 1).elim [] SimResult.resonance_data).getD 1
        { time := 0, amplitude := 0 }).amplitude ≠ specAmplitude 0 (1 / 4) 1 1 := by
  have h2 : pyInt ((2 : ℝ) * 1) = 2 := by
    rw [show ((2 : ℝ) * 1 = ((2 : ℤ) : ℝ)) by norm_num, pyInt_intCast]
  rw [simulate_eq_some (by rw [h2]; norm_num), Option.elim_some]
  rw [h2, show ((2 : ℤ).toNat = 2) from rfl]
  rw [getD_map_range _ _ _ _ (by norm_num : (1 : ℕ) < 2)]
  rw [show (simPoint (1 / 4) 1 1 1 = simPointD 0.01 (1 / 4) 1 1 1) from rfl, simPointD_1]
  rw [sin_two_pi_quarter, mul_one]
  rw [show (specAmplitude 0 (1 / 4) 1 1 = 1) by
    simp only [specAmplitude, Finset.Icc_self, Finset.sum_singleton, Nat.cast_one]
    rw [show (2 * π * ((1 / 4 : ℝ) * 1) * 1 = π / 2) by ring, Real.sin_pi_div_two]
    norm_num]
  exact ne_of_lt (pyRoundTo_lt_one6 exp_hundredth_le)

/-- Claim C3, amended.  The synthesized amplitude at sample time
`t = i / sample_rate` is the rounding to 6 decimal places of the
weighted-harmonic formula evaluated with the damping coefficient fixed at the
source default `0.01`, regardless of any damping in the parameters. -/
theorem synth_amplitude_fixed_damping (f : ℝ) (H : ℕ) (dur sr : ℝ) (r : SimResult)
    (hr : simulate_harmonic_qubit f H dur sr = some r) (i : ℕ)
    (hi : i < r.resonance_data.length) :
    (r.resonance_data.getD i { time := 0, amplitude := 0 }).amplitude =
      pyRoundTo (specAmplitude 0.01 f H ((i : ℝ) / sr)) 6 := by
  rw [simulate_data hr] at hi ⊢
  rw [List.length_map, List.length_range] at hi
  rw [getD_map_range _ _ _ _ hi]
  rfl

/-- Witness for `synth_amplitude_fixed_damping` on the concrete run
`simulate_harmonic_qubit 1 1 1 1` at sample index `0`. -/
theorem synth_amplitude_fixed_damping_witness :
    simulate_harmonic_qubit 1 1 1 1 =
      some { base_frequency_hz := 1, harmonics := 1, duration_seconds := 1, sample_rate_hz := 1,
             data_points := 1, resonance_data := [simPoint 1 1 1 0] } ∧
    (([simPoint 1 1 1 0] : List DataPoint).getD 0 { time := 0, amplitude := 0 }).amplitude =
      pyRoundTo (specAmplitude 0.01 1 1 ((0 : ℕ) / (1 : ℝ))) 6 :=
  ⟨simulate_unit,
    synth_amplitude_fixed_damping 1 1 1 1 _ simulate_unit 0 (by simp)⟩

/-- Claim C10.  The public synthesis operation exposes no damping parameter:
whatever the parameters, every sample of the returned series is computed with
the damping coefficient fixed at the `compute_resonance_amplitude` default
`0.01` — and this genuinely constrains the output: the series the same
parameters would produce with damping `0` differs from the one produced. -/
theorem fixed_default_damping_interface :
    (∀ (f : ℝ) (H : ℕ) (dur sr : ℝ) (r : SimResult),
        simulate_harmonic_qubit f H dur sr = some r →
        r.resonance_data = genSimData 0.01 f H dur sr) ∧
    genSimData 0 (1 / 4) 1 2 1 ≠ genSimData 0.01 (1 / 4) 1 2 1 := by
  constructor
  · intro f H dur sr r hr
    rw [simulate_data hr]
    rfl
  · intro hEq
    have h2 : pyInt ((2 : ℝ) * 1) = 2 := by
      rw [show ((2 : ℝ) * 1 = ((2 : ℤ) : ℝ)) by norm_num, pyInt_intCast]
    have hamp := congrArg
      (fun l : List DataPoint => (l.getD 1 { time := 0, amplitude := 0 }).amplitude) hEq
    simp only [genSimData, h2, show ((2 : ℤ).toNat = 2) from rfl] at hamp
    rw [getD_map_range _ _ _ _ (by norm_num : (1 : ℕ) < 2),
      getD_map_range _ _ _ _ (by norm_num : (1 : ℕ) < 2)] at hamp
    rw [simPointD_1, simPointD_1, sin_two_pi_quarter, mul_one, mul_one] at hamp
    rw [neg_zero, Real.exp_zero, pyRoundTo_one] at hamp
    exact absurd hamp.symm (ne_of_lt (pyRoundTo_lt_one6 exp_hundredth_le))

/-- Claim C9.  Every sample produced by synthesis under `harmonics ≥ 1` and a
positive sample rate has its normalized amplitude in `[-1, 1]`: the
`1/h`-weighted damped harmonic sum divided by `Σ 1/h` has magnitude at most
`1` (each damped sinusoid has magnitude at most `1` at the nonnegative sample
times), and the 6-decimal rounding preserves the bound. -/
theorem normalized_amplitude_in_unit_interval (f : ℝ) (H : ℕ) (dur sr : ℝ)
    (hH : 1 ≤ H) (hsr : 0 < sr) (r : SimResult)
    (hr : simulate_harmonic_qubit f H dur sr = some r) (p : DataPoint)
    (hp : p ∈ r.resonance_data) : -1 ≤ p.amplitude ∧ p.amplitude ≤ 1 := by
  rw [simulate_data hr] at hp
  obtain ⟨i, hi, rfl⟩ := List.mem_map.mp hp
  have ht : (0 : ℝ) ≤ (i : ℝ) / sr := div_nonneg (Nat.cast_nonneg i) (le_of_lt hsr)
  have hW : 0 < weightSum H := by
    rw [weightSum]
    apply Finset.sum_pos
    · intro h hh
      rw [Finset.mem_Icc] at hh
      have hh0 : (0 : ℝ) < (h : ℝ) := by exact_mod_cast hh.1
      positivity
    · exact ⟨1, Finset.mem_Icc.mpr ⟨le_refl 1, hH⟩⟩
  have hsum : |∑ h ∈ Finset.Icc 1 H,
      (1 / (h : ℝ)) * compute_resonance_amplitude (f * h) ((i : ℝ) / sr)| ≤ weightSum H := by
    calc |∑ h ∈ Finset.Icc 1 H,
          (1 / (h : ℝ)) * compute_resonance_amplitude (f * h) ((i : ℝ) / sr)|
        ≤ ∑ h ∈ Finset.Icc 1 H,
          |(1 / (h : ℝ)) * compute_resonance_amplitude (f * h) ((i : ℝ) / sr)| :=
          Finset.abs_sum_le_sum_abs _ _
      _ ≤ ∑ h ∈ Finset.Icc 1 H, 1 / (h : ℝ) := by
          apply Finset.sum_le_sum
          intro h hh
          rw [Finset.mem_Icc] at hh
          have hh0 : (0 : ℝ) < (h : ℝ) := by exact_mod_cast hh.1
          have hamp : |compute_resonance_amplitude (f * h) ((i : ℝ) / sr)| ≤ 1 := by
            simp only [compute_resonance_amplitude]
            rw [abs_mul, Real.abs_exp]
            have hexp : Real.exp (-(0.01 : ℝ) * ((i : ℝ) / sr)) ≤ 1 := by
              apply Real.exp_le_one_iff.mpr
              have h1 : (0 : ℝ) ≤ (0.01 : ℝ) * ((i : ℝ) / sr) :=
                mul_nonneg (by norm_num) ht
              linarith
            calc Real.exp (-(0.01 : ℝ) * ((i : ℝ) / sr)) *
                  |Real.sin (2 * π * (f * h) * ((i : ℝ) / sr))| ≤ 1 * 1 :=
                  mul_le_mul hexp (Real.abs_sin_le_one _) (abs_nonneg _) zero_le_one
              _ = 1 := one_mul 1
          rw [abs_mul, abs_of_pos (show (0 : ℝ) < 1 / (h : ℝ) by positivity)]
          exact mul_le_of_le_one_right (by positivity) hamp
      _ = weightSum H := rfl
  have habs : |(∑ h ∈ Finset.Icc 1 H,
      (1 / (h : ℝ)) * compute_resonance_amplitude (f * h) ((i : ℝ) / sr)) / weightSum H| ≤ 1 := by
    rw [abs_div, abs_of_pos hW, div_le_one hW]
    exact hsum
  exact abs_le.mp (abs_pyRoundTo_le_one 6 habs)

/-- Witness for `normalized_amplitude_in_unit_interval` on the concrete run
`simulate_harmonic_qubit 1 1 1 1` and its single sample. -/
theorem normalized_amplitude_in_unit_interval_witness :
    1 ≤ 1 ∧ (0 : ℝ) < 1 ∧ simPoint 1 1 1 0 ∈ [simPoint 1 1 1 0] ∧
    (-1 ≤ (simPoint 1 1 1 0).amplitude ∧ (simPoint 1 1 1 0).amplitude ≤ 1) :=
  ⟨le_refl 1, one_pos, List.mem_singleton.mpr rfl,
    normalized_amplitude_in_unit_interval 1 1 1 1 (le_refl 1) one_pos _ simulate_unit _
      (List.mem_singleton.mpr rfl)⟩

/-- Witness for `fixed_default_damping_interface` on the concrete run
`simulate_harmonic_qubit 1 1 1 1`. -/
theorem fixed_default_damping_interface_witness :
    simulate_harmonic_qubit 1 1 1 1 =
      some { base_frequency_hz := 1, harmonics := 1, duration_seconds := 1, sample_rate_hz := 1,
             data_points := 1, resonance_data := [simPoint 1 1 1 0] } ∧
    ([simPoint 1 1 1 0] : List DataPoint) = genSimData 0.01 1 1 1 1 :=
  ⟨simulate_unit, fixed_default_damping_interface.1 1 1 1 1 _ simulate_unit⟩

/-- Claim C2, amended.  The synthesis operation performs no parameter
validation.  `harmonics = 0` (the empty harmonic range, covering every Python
`harmonics < 1`) faults with a division by zero exactly when at least one
sample is due — so no TimeSeries, partial or otherwise, is returned in that
case.  `sample_rate ≤ 0` or `duration ≤ 0` are not rejected: whenever the
product `duration * sample_rate` is `≤ 0` (in particular whenever exactly one
of the two is `≤ 0` and the other nonnegative) synthesis silently returns a
result carrying an empty TimeSeries, and when both are negative the truncated
product is positive and a full non-empty TimeSeries is produced (see the
counterexample); damping is not a parameter of the operation at all. -/
theorem simulate_validation_behavior (f : ℝ) (H : ℕ) (dur sr : ℝ) :
    (simulate_harmonic_qubit f H dur sr = none ↔
      H = 0 ∧ 0 < (pyInt (dur * sr)).toNat) ∧
    (dur * sr ≤ 0 →
      simulate_harmonic_qubit f H dur sr =
        some { base_frequency_hz := f, harmonics := H, duration_seconds := dur,
               sample_rate_hz := sr, data_points := 0, resonance_data := [] }) := by
  constructor
  · constructor
    · intro hnone
      by_cases h : 0 < (pyInt (dur * sr)).toNat ∧ H = 0
      · exact ⟨h.2, h.1⟩
      · rw [simulate_eq_some h] at hnone
        cases hnone
    · intro h
      rw [simulate_harmonic_qubit, if_pos ⟨h.2, h.1⟩]
  · intro hds
    have hz : (pyInt (dur * sr)).toNat = 0 := by
      rw [Int.toNat_eq_zero, pyInt]
      split_ifs with h
      · exact Int.floor_nonpos hds
      · have h2 := not_le.mp h
        simp only [neg_nonpos]
        exact Int.floor_nonneg.mpr (by linarith)
    rw [simulate_eq_some (by rw [hz]; norm_num), hz]
    simp

/-- Witness for `simulate_validation_behavior` at the concrete invalid input
`duration = -1`, `sample_rate = 100`. -/
theorem simulate_validation_behavior_witness :
    (simulate_harmonic_qubit 5 5 (-1) 100 = none ↔
      (5 : ℕ) = 0 ∧ 0 < (pyInt ((-1 : ℝ) * 100)).toNat) ∧
    ((-1 : ℝ) * 100 ≤ 0) ∧
    simulate_harmonic_qubit 5 5 (-1) 100 =
      some { base_frequency_hz := 5, harmonics := 5, duration_seconds := -1,
             sample_rate_hz := 100, data_points := 0, resonance_data := [] } :=
  ⟨(simulate_validation_behavior 5 5 (-1) 100).1, by norm_num,
    (simulate_validation_behavior 5 5 (-1) 100).2 (by norm_num)⟩

/-- Claim C6, counterexample.  `coherence_retention` is not rounded to 6
decimal places: on the series with amplitudes `[3, 1]` the exact retention
ratio is `2/3`, whose 6-place rounding is `0.666667`, but the code returns
`round(2/3, 4) = 0.6667`. -/
theorem coherence_retention_rounding_cex :
    (compute_coherence_metrics
        [{ time := 0, amplitude := 3 }, { time := 1, amplitude := 1 }]).coherence_retention ≠
      pyRoundTo (retentionRaw [{ time := 0, amplitude := 3 }, { time := 1, amplitude := 1 }]) 6 := by
  rw [coherence_eval _ (by simp), retentionRaw_pair]
  show pyRoundTo (2 / 3) 4 ≠ pyRoundTo (2 / 3) 6
  rw [pyRoundTo, pyRoundTo, pyRound_23_4, pyRound_23_6]
  norm_num

/-- Claim C6, amended.  At the coherence boundary, `initial_peak_amplitude`
and `final_avg_amplitude` are rounded to 6 decimal places, but
`coherence_retention` is rounded to 4 decimal places (the ratio being
computed from the unrounded peak and average). -/
theorem coherence_boundary_rounding (data : List DataPoint) (hne : data ≠ []) :
    (compute_coherence_metrics data).initial_peak_amplitude = pyRoundTo (peakRaw data) 6 ∧
    (compute_coherence_metrics data).final_avg_amplitude = pyRoundTo (finalAvgRaw data) 6 ∧
    (compute_coherence_metrics data).coherence_retention = pyRoundTo (retentionRaw data) 4 := by
  rw [coherence_eval data hne]
  exact ⟨rfl, rfl, rfl⟩

/-- Witness for `coherence_boundary_rounding` on a concrete one-point
series. -/
theorem coherence_boundary_rounding_witness :
    ([{ time := 0, amplitude := 2 }] : List DataPoint) ≠ [] ∧
    (compute_coherence_metrics [{ time := 0, amplitude := 2 }]).initial_peak_amplitude =
      pyRoundTo (peakRaw [{ time := 0, amplitude := 2 }]) 6 ∧
    (compute_coherence_metrics [{ time := 0, amplitude := 2 }]).coherence_retention =
      pyRoundTo (retentionRaw [{ time := 0, amplitude := 2 }]) 4 :=
  ⟨by simp, (coherence_boundary_rounding _ (by simp)).1,
    (coherence_boundary_rounding _ (by simp)).2.2⟩

/-- Claim C7, counterexample.  `compute_coherence` does not return the exact
windowed quantities: on the series with amplitudes `[1, 1, 0]` the exact mean
of `|a|` over the last `w = 3` samples is `2/3`, but the returned
`final_avg_amplitude` is the 6-place rounding `0.666667 ≠ 2/3`. -/
theorem coherence_algorithm_cex :
    finalAvgRaw [{ time := 0, amplitude := 1 }, { time := 1, amplitude := 1 },
        { time := 2, amplitude := 0 }] = 2 / 3 ∧
    (compute_coherence_metrics [{ time := 0, amplitude := 1 }, { time := 1, amplitude := 1 },
        { time := 2, amplitude := 0 }]).final_avg_amplitude ≠ 2 / 3 := by
  have hf : finalAvgRaw [{ time := 0, amplitude := 1 }, { time := 1, amplitude := 1 },
      { time := 2, amplitude := 0 }] = 2 / 3 := by
    show ([|(1 : ℝ)|, |(1 : ℝ)|, |(0 : ℝ)|].sum) / ((3 : ℕ) : ℝ) = 2 / 3
    rw [abs_one, abs_zero]
    norm_num
  refine ⟨hf, ?_⟩
  rw [coherence_eval _ (by simp)]
  show pyRoundTo (finalAvgRaw _) 6 ≠ 2 / 3
  rw [hf, pyRoundTo, pyRound_23_6]
  norm_num

/-- Claim C7, amended.  `compute_coherence` with `w = min(100, n)` returns the
6-place roundings of the peak of `|a|` over the first `w` samples and of the
mean of `|a|` over the last `w` samples, the 4-place rounding of their ratio
(`0` when the peak is zero), the exact time of the last sample, and the sample
count; the empty series yields the all-zero record.  The `pyMax` peak really
is the window maximum: it dominates every windowed `|a|` and is attained. -/
theorem coherence_algorithm_spec (data : List DataPoint) :
    (data = [] → compute_coherence_metrics data =
      { total_duration_s := 0, initial_peak_amplitude := 0, final_avg_amplitude := 0,
        coherence_retention := 0, sample_count := 0 }) ∧
    (∀ hne : data ≠ [],
      (compute_coherence_metrics data).initial_peak_amplitude = pyRoundTo (peakRaw data) 6 ∧
      (compute_coherence_metrics data).final_avg_amplitude = pyRoundTo (finalAvgRaw data) 6 ∧
      (compute_coherence_metrics data).coherence_retention =
        pyRoundTo (if peakRaw data ≠ 0 then finalAvgRaw data / peakRaw data else 0) 4 ∧
      (compute_coherence_metrics data).total_duration_s = (data.getLast hne).time ∧
      (compute_coherence_metrics data).sample_count = data.length ∧
      (∀ a ∈ (data.map DataPoint.amplitude).take (min 100 data.length),
        |a| ≤ peakRaw data) ∧
      peakRaw data ∈
        ((data.map DataPoint.amplitude).take (min 100 data.length)).map (fun a => |a|)) := by
  constructor
  · intro h
    subst h
    simp [compute_coherence_metrics]
  · intro hne
    rw [coherence_eval data hne]
    refine ⟨rfl, rfl, ?_, ?_, rfl, ?_, ?_⟩
    · show pyRoundTo (retentionRaw data) 4 = _
      rw [retentionRaw]
      by_cases h : 0 < peakRaw data
      · rw [if_pos h, if_pos (ne_of_gt h)]
      · have h0 : peakRaw data = 0 := le_antisymm (not_lt.mp h) (peakRaw_nonneg data hne)
        rw [if_neg h, if_neg (by rw [h0]; simp)]
    · show ((data.map DataPoint.time).getLast?).getD 0 = _
      rw [List.getLast?_map, List.getLast?_eq_getLast data hne]
      rfl
    · intro a ha
      exact le_pyMax _ _ (List.mem_map_of_mem _ ha)
    · exact pyMax_mem _ (coherence_window_ne data hne)

/-- Witness for `coherence_algorithm_spec` on a concrete one-point series. -/
theorem coherence_algorithm_spec_witness :
    ([{ time := 0, amplitude := 2 }] : List DataPoint) ≠ [] ∧
    (compute_coherence_metrics [{ time := 0, amplitude := 2 }]).total_duration_s =
      (([{ time := 0, amplitude := 2 }] : List DataPoint).getLast (by simp)).time ∧
    (compute_coherence_metrics [{ time := 0, amplitude := 2 }]).sample_count =
      ([{ time := 0, amplitude := 2 }] : List DataPoint).length :=
  have hne : ([{ time := 0, amplitude := 2 }] : List DataPoint) ≠ [] := by simp
  ⟨hne, ((coherence_algorithm_spec _).2 hne).2.2.2.1,
    ((coherence_algorithm_spec _).2 hne).2.2.2.2.1⟩

/-- Evaluation of the 72.1-second scenario in this exact-real model:
`base_frequency = 5`, `harmonics = 5`, `duration = 72.1`, `sample_rate = 100`
give `⌊72.1 · 100⌋ = 7210` samples, `total_duration_s = 72.09`, `bins = 50`
and `frequency_resolution_hz = 0.01387` (the 6-place rounding of
`100 / 7210`).  The program itself computes `int(72.1 * 100.0)` on IEEE
doubles, where the product is `7209.999999999999`: it actually yields `7209`
samples, total duration `72.08` and frequency resolution
`round(100/7209, 6) = 0.013872` (and still 50 bins).  The scenario's concrete
sample count is therefore decided by floating-point rounding, which this
real-valued embedding deliberately does not capture; this lemma only records
what exact real arithmetic would give. -/
theorem scenario_72s_exact_real_model :
    (simulate_harmonic_qubit 5 5 72.1 100).elim False (fun r =>
      (compute_coherence_metrics r.resonance_data).sample_count = 7210 ∧
      (compute_coherence_metrics r.resonance_data).total_duration_s = 7209 / 100 ∧
      (generate_fft_spectrum r.resonance_data 100 50).elim False (fun s =>
        s.bins = 50 ∧ s.frequency_resolution_hz = 1387 / 100000)) := by
  have hp : pyInt ((72.1 : ℝ) * 100) = 7210 := by
    rw [show ((72.1 : ℝ) * 100 = ((7210 : ℤ) : ℝ)) by norm_num, pyInt_intCast]
  have hsim : simulate_harmonic_qubit 5 5 72.1 100 =
      some { base_frequency_hz := 5, harmonics := 5, duration_seconds := 72.1,
             sample_rate_hz := 100, data_points := 7210,
             resonance_data := (List.range 7210).map (simPoint 5 5 100) } := by
    rw [simulate_eq_some (by rw [hp]; norm_num), hp]
    rfl
  rw [hsim, Option.elim_some]
  have hlen : ((List.range 7210).map (simPoint 5 5 100)).length = 7210 := by
    rw [List.length_map, List.length_range]
  have hneL : ((List.range 7210).map (simPoint 5 5 100)) ≠ [] := by
    intro h
    rw [h] at hlen
    exact absurd hlen (by norm_num)
  dsimp only
  refine ⟨?_, ?_, ?_⟩
  · rw [coherence_sample_count _ hneL]
    exact hlen
  · rw [coherence_total_duration _ hneL]
    have hlast : (List.range 7210).getLast? = some 7209 := by
      rw [show (7210 : ℕ) = 7209 + 1 by norm_num, List.range_succ]
      exact List.getLast?_concat _
    rw [List.getLast?_map, List.getLast?_map, hlast, Option.map_some', Option.map_some',
      Option.getD_some, simPoint_time]
    rw [pyRoundTo,
      show ((((7209 : ℕ) : ℝ) / 100) * 10 ^ 4 = ((720900 : ℤ) : ℝ)) by push_cast; norm_num,
      pyRound_intCast]
    push_cast
    norm_num
  · have hlen2 : ((((List.range 7210).map (simPoint 5 5 100)).map DataPoint.amplitude)).length
        = 7210 := by
      rw [List.length_map, hlen]
    simp only [generate_fft_spectrum, hlen2]
    rw [if_neg (by norm_num), Option.elim_some]
    dsimp only
    constructor
    · norm_num
    · rw [pyRoundTo,
        show (((100 : ℝ) / ((7210 : ℕ) : ℝ)) * 10 ^ 6 = 10000000 / 721) by push_cast; norm_num,
        show pyRound ((10000000 : ℝ) / 721) = 13870 from
          pyRound_eq_int (@fract_ne_half _ 13869 (by norm_num) (by norm_num) (by norm_num))
            (by norm_num) (by norm_num)]
      norm_num

end
